import Mathlib

/-!
# Verification of the fzf matcher engine (`src/matcher.go`)

Shallow embedding of the request-serializing scan scheduler: the `Matcher.Loop`
request cycle, the `sliceChunks` partitioner, the scan supervisor and worker of
`Matcher.scan`, and the merger cache.

Collaborator code that is not part of `matcher.go` (the `Merger` constructors,
`CountItems`, `Chunk.lastIndex`, the `revision.compatible` predicate and the
relevance comparators) is modelled from the specification, as documented on
each such definition.  Everything else is translated directly from the source.
-/

namespace Fzf

/-- Modelled from the spec: an `Item` is an opaque, indexed unit of searchable
text (item.go is not under src/); only its index is observed by the matcher. -/
structure Item where
  index : Nat
  deriving DecidableEq, Repr

/-- Modelled from the spec: a `Chunk` is an ordered, fixed-capacity batch of
items (chunklist.go is not under src/); the matcher only reads its items. -/
structure Chunk where
  items : List Item
  deriving DecidableEq, Repr

/-- The compiled `Pattern` collaborator, by its interface consumed in
matcher.go: emptiness check, cache-key string, sortable flag, and the scoring
operation `Match` against a chunk (the scratch slab does not affect values). -/
structure Pattern (Result : Type) where
  AsString : String
  sortable : Bool
  IsEmpty : Bool
  Match : Chunk → List Result

/-- `MatchRequest` from matcher.go: chunks, pattern, `final`, `sort`, and the
revision token (revision is kept as an abstract type parameter `Rev`). -/
structure MatchRequest (Result Rev : Type) where
  chunks : List Chunk
  pattern : Pattern Result
  final : Bool
  sort : Bool
  revision : Rev

/-- Modelled from the spec: `CountItems` (chunklist.go, not under src/) is the
current item count over the request's chunks. -/
def CountItems (chunks : List Chunk) : Nat :=
  (chunks.map (fun c => c.items.length)).sum

/-- Modelled from the spec: `Chunk.lastIndex` (chunklist.go, not under src/)
returns the index of the chunk's last item, or the supplied default when the
chunk is empty. -/
def Chunk.lastIndex (c : Chunk) (deflt : Nat) : Nat :=
  match c.items.getLast? with
  | some it => it.index
  | none => deflt

/-- Modelled from the spec: the payload a `Merger` was constructed from.
The merger is opaque except for its construction contract: `empty`,
`passThrough` (all items unscored, reversed in tac mode), or `build` from
partition-ordered partial result sets with sort/tac/index-range metadata. -/
inductive MergerData (Result : Type) where
  | emptyData : MergerData Result
  | passData (items : List Item) : MergerData Result
  | buildData (partials : List (List Result)) (sorted : Bool) (tac : Bool)
      (minIndex maxIndex : Nat) : MergerData Result
  deriving DecidableEq

/-- Modelled from the spec: the `Merger` collaborator (merger.go, not under
src/): opaque data plus the revision tag, the mutable `final` flag and the
`cacheable` predicate. -/
structure Merger (Result Rev : Type) where
  data : MergerData Result
  revision : Rev
  final : Bool
  cacheable : Bool
  deriving DecidableEq

/-- Modelled from the spec: `EmptyMerger` — a well-formed empty terminal
result tagged with the revision; not cacheable (spec: cacheable only for
non-empty scans). -/
def EmptyMerger {Result Rev : Type} (rev : Rev) : Merger Result Rev :=
  { data := .emptyData, revision := rev, final := false, cacheable := false }

/-- Modelled from the spec: `PassMerger` wraps all chunks unscored — every
item a match, in original order, or reversed when tac (tail-first) mode is
on — tagged with the revision. -/
def PassMerger {Result Rev : Type} (chunks : List Chunk) (tac : Bool)
    (rev : Rev) : Merger Result Rev :=
  let items := (chunks.map Chunk.items).flatten
  { data := .passData (if tac then items.reverse else items)
    revision := rev
    final := false
    cacheable := !items.isEmpty }

/-- Modelled from the spec: `NewMerger` builds the aggregated result from the
partition-index-ordered partial result sets plus sort/tac/revision/index-range
metadata; a fully completed scan is cacheable when non-empty. -/
def NewMerger {Result Rev : Type} (_pattern : Pattern Result)
    (partials : List (List Result)) (sorted : Bool) (tac : Bool) (rev : Rev)
    (minIndex maxIndex : Nat) : Merger Result Rev :=
  { data := .buildData partials sorted tac minIndex maxIndex
    revision := rev
    final := false
    cacheable := !partials.flatten.isEmpty }

/-! ## The partitioner: `Matcher.sliceChunks` (matcher.go lines 129-148)

```go
func (m *Matcher) sliceChunks(chunks []*Chunk) [][]*Chunk {
    partitions := m.partitions
    perSlice := len(chunks) / partitions
    if perSlice == 0 {
        partitions = len(chunks)
        perSlice = 1
    }
    slices := make([][]*Chunk, partitions)
    for i := 0; i < partitions; i++ {
        start := i * perSlice
        end := start + perSlice
        if i == partitions-1 {
            end = len(chunks)
        }
        slices[i] = chunks[start:end]
    }
    return slices
}
```
The element type is kept generic; the code never inspects the chunks. -/
def sliceChunks {α : Type} (partitions : Nat) (chunks : List α) :
    List (List α) :=
  let perSlice := chunks.length / partitions
  let pp : Nat × Nat :=
    if perSlice = 0 then (chunks.length, 1) else (partitions, perSlice)
  (List.range pp.1).map (fun i =>
    let start := i * pp.2
    if i = pp.1 - 1 then chunks.drop start else (chunks.drop start).take pp.2)

/-- The partition shape with effective partition count and slice size made
explicit, for reasoning about `sliceChunks`. -/
def slicesOf {α : Type} (parts per : Nat) (l : List α) : List (List α) :=
  (List.range parts).map (fun i =>
    if i = parts - 1 then l.drop (i * per) else (l.drop (i * per)).take per)

theorem sliceChunks_eq_slicesOf {α : Type} (P : Nat) (l : List α) :
    sliceChunks P l =
      if l.length / P = 0 then slicesOf l.length 1 l
      else slicesOf P (l.length / P) l := by
  unfold sliceChunks slicesOf
  by_cases h : l.length / P = 0 <;> simp [h]

theorem slicesOf_split {α : Type} (parts per : Nat) (l : List α)
    (h : 1 ≤ parts) :
    slicesOf parts per l =
      ((List.range (parts - 1)).map (fun i => (l.drop (i * per)).take per))
        ++ [l.drop ((parts - 1) * per)] := by
  obtain ⟨k, rfl⟩ : ∃ k, parts = k + 1 :=
    ⟨parts - 1, (Nat.succ_pred_eq_of_pos h).symm⟩
  unfold slicesOf
  rw [List.range_succ, List.map_append]
  simp only [Nat.add_sub_cancel, List.map_cons, List.map_nil, if_pos rfl]
  congr 1
  exact List.map_congr_left fun i hi => by
    have : i ≠ k := Nat.ne_of_lt (List.mem_range.mp hi)
    simp [this]

theorem slicesOf_take_flatten {α : Type} (per : Nat) (l : List α) :
    ∀ k, ((List.range k).map (fun i => (l.drop (i * per)).take per)).flatten
      = l.take (k * per) := by
  intro k
  induction k with
  | zero => simp
  | succ k ih =>
    rw [List.range_succ, List.map_append, List.flatten_append, ih]
    simp only [List.map_cons, List.map_nil, List.flatten_cons,
      List.flatten_nil, List.append_nil]
    rw [← List.take_add, Nat.succ_mul]

theorem slicesOf_flatten {α : Type} (parts per : Nat) (l : List α)
    (h : 1 ≤ parts) : (slicesOf parts per l).flatten = l := by
  rw [slicesOf_split parts per l h, List.flatten_append,
    slicesOf_take_flatten]
  simp

theorem slicesOf_length {α : Type} (parts per : Nat) (l : List α) :
    (slicesOf parts per l).length = parts := by
  simp [slicesOf]

theorem slicesOf_getD {α : Type} {parts per : Nat} {l : List α} {i : Nat}
    (hi : i < parts) :
    (slicesOf parts per l).getD i []
      = if i = parts - 1 then l.drop (i * per)
        else (l.drop (i * per)).take per := by
  unfold slicesOf
  rw [List.getD_eq_getElem?_getD, List.getElem?_map, List.getElem?_range hi]
  rfl

theorem slicesOf_mem {α : Type} {parts per : Nat} {l : List α} {s : List α}
    (hs : s ∈ slicesOf parts per l) :
    ∃ i, i < parts ∧
      s = (if i = parts - 1 then l.drop (i * per)
        else (l.drop (i * per)).take per) := by
  unfold slicesOf at hs
  obtain ⟨i, hi, rfl⟩ := List.mem_map.mp hs
  exact ⟨i, List.mem_range.mp hi, rfl⟩

theorem slicesOf_slice_length {α : Type} {parts per : Nat} {l : List α}
    {i : Nat} (hper : 1 ≤ per) (hlast : (parts - 1) * per < l.length)
    (hi : i < parts) :
    (if i = parts - 1 then l.drop (i * per)
      else (l.drop (i * per)).take per).length
    = if i = parts - 1 then l.length - (parts - 1) * per else per := by
  by_cases hl : i = parts - 1
  · subst hl; simp
  · have hile : i + 1 ≤ parts - 1 := by omega
    have hmul : (i + 1) * per ≤ (parts - 1) * per :=
      Nat.mul_le_mul_right per hile
    have hbound : i * per + per ≤ l.length := by
      have := Nat.lt_of_le_of_lt hmul hlast
      calc i * per + per = (i + 1) * per := (Nat.succ_mul i per).symm
        _ ≤ l.length := Nat.le_of_lt this
    simp only [hl, if_false, List.length_take, List.length_drop]
    omega

theorem slicesOf_ne_nil {α : Type} {parts per : Nat} {l : List α}
    (hper : 1 ≤ per) (hlast : (parts - 1) * per < l.length) :
    ∀ s ∈ slicesOf parts per l, s ≠ [] := by
  intro s hs
  obtain ⟨i, hi, rfl⟩ := slicesOf_mem hs
  have hlen := slicesOf_slice_length (l := l) hper hlast hi
  intro hnil
  rw [hnil] at hlen
  simp only [List.length_nil] at hlen
  by_cases hl : i = parts - 1
  · rw [if_pos hl] at hlen; omega
  · rw [if_neg hl] at hlen; omega

theorem sliceChunks_cases {α : Type} (P : Nat) (l : List α) (hP : 1 ≤ P) :
    (l.length < P ∧ sliceChunks P l = slicesOf l.length 1 l)
    ∨ (P ≤ l.length ∧ 1 ≤ l.length / P
        ∧ sliceChunks P l = slicesOf P (l.length / P) l) := by
  rw [sliceChunks_eq_slicesOf]
  by_cases h : l.length / P = 0
  · exact Or.inl ⟨(Nat.div_eq_zero_iff hP).mp h, by rw [if_pos h]⟩
  · refine Or.inr ⟨?_, Nat.one_le_iff_ne_zero.mpr h, by rw [if_neg h]⟩
    by_contra hlt
    exact h ((Nat.div_eq_zero_iff hP).mpr (Nat.lt_of_not_le hlt))

theorem slicesOf_getLast? {α : Type} (parts per : Nat) (l : List α)
    (h : 1 ≤ parts) :
    (slicesOf parts per l).getLast? = some (l.drop ((parts - 1) * per)) := by
  rw [slicesOf_split parts per l h, List.getLast?_concat]

/-- C3: for a non-empty chunk list of length N and partition count P ≥ 1, the
partitioner's slices concatenate back to the input in partition-index order
(full coverage, no overlap, no omission), no slice is empty, each non-final
slice has size N/P with the final slice absorbing the remainder, and when
N < P there are exactly N slices of one chunk each. -/
theorem sliceChunks_partition_correct {α : Type} (P : Nat) (chunks : List α)
    (hP : 1 ≤ P) (hne : chunks ≠ []) :
    (sliceChunks P chunks).flatten = chunks
    ∧ (∀ sl ∈ sliceChunks P chunks, sl ≠ [])
    ∧ (chunks.length < P →
        (sliceChunks P chunks).length = chunks.length
        ∧ ∀ sl ∈ sliceChunks P chunks, sl.length = 1)
    ∧ (P ≤ chunks.length →
        (sliceChunks P chunks).length = P
        ∧ (∀ i, i + 1 < P →
            ((sliceChunks P chunks).getD i []).length = chunks.length / P)
        ∧ (sliceChunks P chunks).getLast?
            = some (chunks.drop ((P - 1) * (chunks.length / P)))
        ∧ (chunks.drop ((P - 1) * (chunks.length / P))).length
            = chunks.length - (P - 1) * (chunks.length / P)) := by
  have hN : 1 ≤ chunks.length := List.length_pos.mpr hne
  rcases sliceChunks_cases P chunks hP with ⟨hlt, heq⟩ | ⟨hge, hq1, heq⟩
  · -- N < P: effective partition count N, slice size 1
    have hlast : (chunks.length - 1) * 1 < chunks.length := by
      simp only [Nat.mul_one]; omega
    refine ⟨?_, ?_, fun _ => ⟨?_, ?_⟩, fun hPN => absurd hPN (by omega)⟩
    · rw [heq]; exact slicesOf_flatten _ _ _ hN
    · rw [heq]; exact slicesOf_ne_nil (by omega) hlast
    · rw [heq]; exact slicesOf_length _ _ _
    · intro sl hsl
      rw [heq] at hsl
      obtain ⟨i, hi, rfl⟩ := slicesOf_mem hsl
      rw [slicesOf_slice_length (by omega) hlast hi]
      by_cases hil : i = chunks.length - 1
      · rw [if_pos hil]; simp only [Nat.mul_one]; omega
      · rw [if_neg hil]
  · -- P ≤ N: P partitions of size q = N / P, last one absorbs the remainder
    set q := chunks.length / P with hq
    have hqP : q * P ≤ chunks.length := Nat.div_mul_le_self _ _
    have hsum : (P - 1) * q + q = P * q := by
      have : P - 1 + 1 = P := Nat.succ_pred_eq_of_pos hP
      calc (P - 1) * q + q = (P - 1 + 1) * q := (Nat.succ_mul _ _).symm
        _ = P * q := by rw [this]
    have hPq : P * q ≤ chunks.length := by
      rw [Nat.mul_comm]; exact hqP
    have hlast : (P - 1) * q < chunks.length := by omega
    refine ⟨?_, ?_, fun hNP => absurd hNP (by omega), fun _ => ⟨?_, ?_, ?_, ?_⟩⟩
    · rw [heq]; exact slicesOf_flatten _ _ _ hP
    · rw [heq]; exact slicesOf_ne_nil hq1 hlast
    · rw [heq]; exact slicesOf_length _ _ _
    · intro i hi
      rw [heq, slicesOf_getD (by omega : i < P),
        if_neg (by omega : ¬ i = P - 1)]
      have hmul : (i + 1) * q ≤ (P - 1) * q :=
        Nat.mul_le_mul_right q (by omega)
      have hsucc : (i + 1) * q = i * q + q := Nat.succ_mul _ _
      simp only [List.length_take, List.length_drop]
      omega
    · rw [heq]; exact slicesOf_getLast? _ _ _ hP
    · simp

/-! ## The scan worker and supervisor: `Matcher.scan` (matcher.go lines 155-241) -/

/-- The matcher configuration read by `scan` and its workers: the engine's
`sort` and `tac` flags and the fixed partition count.  `relLe` and `tacLe`
model the external `ByRelevance` and `ByRelevanceTac` comparators from the
spec (result.go is not under src/). -/
structure MatcherEnv (Result : Type) where
  sort : Bool
  tac : Bool
  partitions : Nat
  relLe : Result → Result → Bool
  tacLe : Result → Result → Bool

/-- Insertion step for `sortBy`. -/
def insertBy {α : Type} (le : α → α → Bool) (a : α) : List α → List α
  | [] => [a]
  | b :: bs => if le a b then a :: b :: bs else b :: insertBy le a bs

/-- Modelled from the spec: `sort.Sort` over a comparator — orders the list by
the given relation (the exact algorithm is external to matcher.go). -/
def sortBy {α : Type} (le : α → α → Bool) : List α → List α
  | [] => []
  | a :: as => insertBy le a (sortBy le as)

/-- The worker's local sorting step (matcher.go lines 199-205): sort the
accumulated slice matches when the request asked for sorting and the pattern
is sortable, using the tac comparator in tail-first mode. -/
def workerSortIf {Result : Type} (env : MatcherEnv Result)
    (pat : Pattern Result) (l : List Result) : List Result :=
  if env.sort && pat.sortable then
    if env.tac then sortBy env.tacLe l else sortBy env.relLe l
  else l

/-- The result set a worker hands over for its slice when it runs to
completion: all per-chunk matches concatenated, then locally sorted
(matcher.go lines 184-206 without cancellation). -/
def workerMatches {Result : Type} (env : MatcherEnv Result)
    (pat : Pattern Result) (chunks : List Chunk) : List Result :=
  workerSortIf env pat ((chunks.map pat.Match).flatten)

/-- The per-chunk loop of a worker (matcher.go lines 184-194): score each
chunk, then check the shared cancellation flag — `cancelAt i` is whether the
flag reads true after scoring chunk `i` — and abort immediately when it is
set, otherwise report the chunk's match count on the progress channel.
Returns (accumulated per-chunk matches, counts sent, aborted flag). -/
def workerScan {Result : Type} (pat : Pattern Result)
    (cancelAt : Nat → Bool) : Nat → List Chunk →
    List (List Result) × List Nat × Bool
  | _, [] => ([], [], false)
  | i, c :: cs =>
    let ms := pat.Match c
    if cancelAt i then ([ms], [], true)
    else
      let r := workerScan pat cancelAt (i + 1) cs
      (ms :: r.1, ms.length :: r.2.1, r.2.2)

/-- One whole worker (matcher.go lines 182-207): run the per-chunk loop; when
it aborted due to cancellation the worker returns without handing a result
set to the supervisor; otherwise it hands over the sorted slice matches.
Returns (handed-over result set or none, counts sent on the progress
channel). -/
def workerRun {Result : Type} (env : MatcherEnv Result) (pat : Pattern Result)
    (cancelAt : Nat → Bool) (chunks : List Chunk) :
    Option (List Result) × List Nat :=
  let r := workerScan pat cancelAt 0 chunks
  if r.2.2 then (none, r.2.1)
  else (some (workerSortIf env pat r.1.flatten), r.2.1)

/-- The supervisor's progress/cancellation loop (matcher.go lines 216-233):
receive one chunk-completion signal per iteration; stop normally when the
count reaches `numChunks`; otherwise cancel when a reset request is pending
(`resetAt c` is whether `reqBox.Peek reqReset` holds at count `c`); otherwise
emit a progress ratio `(c, numChunks)` when the minimum duration has elapsed
(`emitAt c`).  Returns (progress events, cancelled flag, final count). -/
def supLoop (numChunks : Nat) (resetAt emitAt : Nat → Bool) :
    Nat → Nat → List (Nat × Nat) × Bool × Nat
  | 0, c => ([], false, c)
  | fuel + 1, c =>
    let c' := c + 1
    if c' = numChunks then ([], false, c')
    else if resetAt c' then ([], true, c')
    else
      let r := supLoop numChunks resetAt emitAt fuel c'
      ((if emitAt c' then [(c', numChunks)] else []) ++ r.1, r.2.1, r.2.2)

/-- The supervisor's collection loop (matcher.go lines 235-239): each
delivered partial result is written at its partition index into an array of
`numSlices` slots. -/
def assemble {Result : Type} (numSlices : Nat)
    (deliveries : List (Nat × List Result)) : List (List Result) :=
  deliveries.foldl (fun acc pr => acc.set pr.1 pr.2)
    (List.replicate numSlices [])

/-- The observable outcome of one `Matcher.scan` call: the merger (none when
cancelled), the cancelled flag, how many workers were spawned, the progress
ratios emitted, and the number of chunk completions the supervisor counted. -/
structure ScanOut (Result Rev : Type) where
  merger : Option (Merger Result Rev)
  cancelled : Bool
  workersSpawned : Nat
  progress : List (Nat × Nat)
  accounted : Nat
  deriving DecidableEq

/-- `Matcher.scan` (matcher.go lines 155-241).  `order` is the order in which
workers deliver their partial results (scheduling-dependent); `resetAt` and
`emitAt` model the pending-reset peek and the elapsed-duration test of the
supervisor loop.  The result is `none` exactly when the scan panics: with a
non-empty pattern it reads `request.chunks[0].items[0]` before partitioning,
which is out of bounds when the first chunk holds no items. -/
def scanEmbed {Result Rev : Type} (env : MatcherEnv Result)
    (resetAt emitAt : Nat → Bool) (order : List Nat)
    (req : MatchRequest Result Rev) : Option (ScanOut Result Rev) :=
  match req.chunks with
  | [] => some ⟨some (EmptyMerger req.revision), false, 0, [], 0⟩
  | c0 :: rest =>
    if req.pattern.IsEmpty then
      some ⟨some (PassMerger req.chunks env.tac req.revision), false, 0, [], 0⟩
    else
      match c0.items.head? with
      | none => none
      | some it0 =>
        let minIndex := it0.index
        let maxIndex := ((c0 :: rest).getLastD c0).lastIndex minIndex
        let numChunks := (c0 :: rest).length
        let slices := sliceChunks env.partitions (c0 :: rest)
        let numSlices := slices.length
        let sup := supLoop numChunks resetAt emitAt numChunks 0
        if sup.2.1 then
          some ⟨none, true, numSlices, sup.1, sup.2.2⟩
        else
          let deliveries := order.map
            (fun i => (i, workerMatches env req.pattern (slices.getD i [])))
          let partials := assemble numSlices deliveries
          some ⟨some (NewMerger req.pattern partials
              (env.sort && req.pattern.sortable) env.tac req.revision
              minIndex maxIndex),
            false, numSlices, sup.1, sup.2.2⟩

/-! ## The Request Loop: `Matcher.Loop` (matcher.go lines 59-127)

One cycle of the loop processes one `MatchRequest`.  The engine state it
reads and writes is `m.sort`, `m.revision`, `m.mergerCache` (an assoc list
keyed by the pattern string) and the loop-local `prevCount`.  The upstream
chunk cache is external; the embedding records whether `m.cache.Clear()` was
invoked.  The scan is abstracted as a function `doScan` returning the merger
(none for a cancelled scan, matching `return nil, wait()`) and the cancelled
flag; the revision-compatibility predicate is the external collaborator. -/

/-- The engine state read and written by one `Matcher.Loop` cycle. -/
structure LoopState (Result Rev : Type) where
  sort : Bool
  revision : Rev
  mergerCache : List (String × Merger Result Rev)
  prevCount : Nat
  deriving DecidableEq

/-- The observable outcome of one `Matcher.Loop` cycle: the new engine state,
whether the merger cache was cleared by the sort/revision check, whether the
upstream chunk cache was instructed to clear, whether `m.scan` ran, and the
`EvtSearchFin` payloads emitted. -/
structure LoopStepOut (Result Rev : Type) where
  state : LoopState Result Rev
  cacheCleared : Bool
  chunkCacheCleared : Bool
  scanRan : Bool
  events : List (Merger Result Rev)
  deriving DecidableEq

/-- matcher.go lines 85-94 up to the merger-cache clear: when the request's
`sort` flag or `revision` differs from the engine's, adopt the new values and
discard the merger cache.  NOTE (as in the source): `m.sort` and `m.revision`
are assigned BEFORE the compatibility test, so the subsequent test
`request.revision.compatible(m.revision)` sees the already-updated field. -/
def clearPhase {Result Rev : Type} [DecidableEq Rev]
    (st : LoopState Result Rev) (req : MatchRequest Result Rev) :
    LoopState Result Rev × Bool :=
  if req.sort ≠ st.sort ∨ req.revision ≠ st.revision then
    ({ st with sort := req.sort, revision := req.revision, mergerCache := [] },
      true)
  else (st, false)

/-- matcher.go lines 96-113: compute the pattern string and item count; when
no cache clearing occurred this cycle, look the merger up when the count
matches `prevCount`, and otherwise rebuild the merger cache and update
`prevCount`.  Returns the updated state and the cached merger, if any. -/
def countPhase {Result Rev : Type} (st1 : LoopState Result Rev)
    (cacheCleared : Bool) (req : MatchRequest Result Rev) :
    LoopState Result Rev × Option (Merger Result Rev) :=
  let count := CountItems req.chunks
  if cacheCleared then (st1, none)
  else if count = st1.prevCount then
    match st1.mergerCache.lookup req.pattern.AsString with
    | some cached =>
      if cached.final = req.final then (st1, some cached) else (st1, none)
    | none => (st1, none)
  else ({ st1 with prevCount := count, mergerCache := [] }, none)

/-- matcher.go lines 119-125: store the merger in the cache when cacheable,
set its `final` flag from the request (the stored and the published merger
are the same object, so both carry the updated flag), and emit
`EvtSearchFin`. -/
def publishPhase {Result Rev : Type} (st2 : LoopState Result Rev)
    (cacheCleared chunkCleared scanRan : Bool)
    (req : MatchRequest Result Rev) (mg : Merger Result Rev) :
    LoopStepOut Result Rev :=
  let mg' := { mg with final := req.final }
  let st3 :=
    if mg.cacheable then
      { st2 with mergerCache := (req.pattern.AsString, mg') :: st2.mergerCache }
    else st2
  ⟨st3, cacheCleared, chunkCleared, scanRan, [mg']⟩

/-- One cycle of `Matcher.Loop` (matcher.go lines 85-125) for one request.
Returns `none` for the impossible nil-merger publish (a Go panic). -/
def loopStep {Result Rev : Type} [DecidableEq Rev]
    (compatible : Rev → Rev → Bool)
    (doScan : MatchRequest Result Rev → Option (Merger Result Rev) × Bool)
    (st : LoopState Result Rev) (req : MatchRequest Result Rev) :
    Option (LoopStepOut Result Rev) :=
  match (countPhase (clearPhase st req).1 (clearPhase st req).2 req).2 with
  | some mg =>
    some (publishPhase
      (countPhase (clearPhase st req).1 (clearPhase st req).2 req).1
      (clearPhase st req).2
      ((clearPhase st req).2
        && !(compatible req.revision (clearPhase st req).1.revision))
      false req mg)
  | none =>
    if (doScan req).2 then
      some ⟨(countPhase (clearPhase st req).1 (clearPhase st req).2 req).1,
        (clearPhase st req).2,
        (clearPhase st req).2
          && !(compatible req.revision (clearPhase st req).1.revision),
        true, []⟩
    else
      match (doScan req).1 with
      | none => none
      | some mg =>
        some (publishPhase
          (countPhase (clearPhase st req).1 (clearPhase st req).2 req).1
          (clearPhase st req).2
          ((clearPhase st req).2
            && !(compatible req.revision (clearPhase st req).1.revision))
          true req mg)

/-! ## Claim theorems -/

/-- C5: for every request with zero chunks, `scan` returns a well-formed
empty merger tagged with the request's revision, reports not-cancelled, and
spawns no workers. -/
theorem scan_zero_chunks_empty_merger {Result Rev : Type}
    (env : MatcherEnv Result) (resetAt emitAt : Nat → Bool)
    (order : List Nat) (req : MatchRequest Result Rev)
    (h : req.chunks = []) :
    scanEmbed env resetAt emitAt order req
      = some ⟨some (EmptyMerger req.revision), false, 0, [], 0⟩
    ∧ (@EmptyMerger Result Rev req.revision).revision = req.revision
    ∧ (@EmptyMerger Result Rev req.revision).data = .emptyData := by
  unfold scanEmbed
  rw [h]
  exact ⟨rfl, rfl, rfl⟩

def c5pat : Pattern Nat :=
  { AsString := "abc", sortable := true, IsEmpty := false
    Match := fun c => c.items.map Item.index }

def c5env : MatcherEnv Nat := ⟨true, false, 4, Nat.ble, fun a b => Nat.ble b a⟩

def c5req : MatchRequest Nat Nat :=
  { chunks := [], pattern := c5pat, final := true, sort := true, revision := 7 }

/-- Witness for C5 at a concrete zero-chunk request. -/
theorem scan_zero_chunks_empty_merger_witness :
    scanEmbed c5env (fun _ => false) (fun _ => true) [0] c5req
      = some ⟨some (EmptyMerger c5req.revision), false, 0, [], 0⟩
    ∧ (@EmptyMerger Nat Nat c5req.revision).revision = c5req.revision
    ∧ (@EmptyMerger Nat Nat c5req.revision).data = .emptyData :=
  scan_zero_chunks_empty_merger c5env (fun _ => false) (fun _ => true) [0]
    c5req rfl

/-- C4: for every request with an empty pattern and a non-empty chunk list,
`scan` yields the pass-through merger — every item of the chunks, in original
order, reversed in tac mode — tagged with the request's revision,
not-cancelled, spawning no workers; and the outcome is independent of the
pattern's scoring operation (no scoring performed). -/
theorem scan_empty_pattern_pass_through {Result Rev : Type}
    (env : MatcherEnv Result) (resetAt emitAt : Nat → Bool)
    (order : List Nat) (req : MatchRequest Result Rev)
    (hne : req.chunks ≠ []) (hemp : req.pattern.IsEmpty = true) :
    scanEmbed env resetAt emitAt order req
      = some ⟨some (PassMerger req.chunks env.tac req.revision),
          false, 0, [], 0⟩
    ∧ (@PassMerger Result Rev req.chunks env.tac req.revision).data
        = .passData
            (if env.tac then ((req.chunks.map Chunk.items).flatten).reverse
              else (req.chunks.map Chunk.items).flatten)
    ∧ (@PassMerger Result Rev req.chunks env.tac req.revision).revision
        = req.revision
    ∧ ∀ f : Chunk → List Result,
        scanEmbed env resetAt emitAt order
            { req with pattern := { req.pattern with Match := f } }
          = scanEmbed env resetAt emitAt order req := by
  obtain ⟨c0, rest, hch⟩ := List.exists_cons_of_ne_nil hne
  refine ⟨?_, ?_, rfl, ?_⟩
  · unfold scanEmbed
    rw [hch]
    simp only [hemp, if_true]
  · unfold PassMerger
    by_cases ht : env.tac <;> simp [ht]
  · intro f
    unfold scanEmbed
    rw [hch]
    simp only [hemp, if_true]

def c4chunks : List Chunk := [⟨[⟨3⟩, ⟨1⟩]⟩, ⟨[⟨2⟩]⟩]

def c4req : MatchRequest Nat Nat :=
  { chunks := c4chunks
    pattern := { AsString := "", sortable := false, IsEmpty := true
                 Match := fun c => c.items.map Item.index }
    final := false, sort := true, revision := 3 }

def c4env : MatcherEnv Nat := ⟨true, true, 2, Nat.ble, fun a b => Nat.ble b a⟩

/-- Witness for C4 at a concrete empty-pattern request (tac mode on). -/
theorem scan_empty_pattern_pass_through_witness :
    scanEmbed c4env (fun _ => false) (fun _ => false) [0, 1] c4req
      = some ⟨some (PassMerger c4req.chunks c4env.tac c4req.revision),
          false, 0, [], 0⟩
    ∧ (@PassMerger Nat Nat c4req.chunks c4env.tac c4req.revision).data
        = .passData
            (if c4env.tac then
              ((c4req.chunks.map Chunk.items).flatten).reverse
              else (c4req.chunks.map Chunk.items).flatten)
    ∧ (@PassMerger Nat Nat c4req.chunks c4env.tac c4req.revision).revision = c4req.revision
    ∧ ∀ f : Chunk → List Nat,
        scanEmbed c4env (fun _ => false) (fun _ => false) [0, 1]
            { c4req with pattern := { c4req.pattern with Match := f } }
          = scanEmbed c4env (fun _ => false) (fun _ => false) [0, 1] c4req :=
  scan_empty_pattern_pass_through c4env (fun _ => false) (fun _ => false)
    [0, 1] c4req (by decide) rfl

/-- C10: with a non-empty pattern and at least one chunk, `scan` reads the
index of the first item of the first chunk before partitioning; it is total
(returns an outcome, no out-of-bounds access) precisely when the first chunk
holds at least one item — a request whose first chunk holds zero items makes
the access go out of bounds. -/
theorem scan_first_chunk_access_total_iff {Result Rev : Type}
    (env : MatcherEnv Result) (resetAt emitAt : Nat → Bool)
    (order : List Nat) (req : MatchRequest Result Rev)
    (c0 : Chunk) (rest : List Chunk)
    (hch : req.chunks = c0 :: rest) (hpat : req.pattern.IsEmpty = false) :
    (scanEmbed env resetAt emitAt order req).isSome ↔ c0.items ≠ [] := by
  unfold scanEmbed
  rw [hch]
  simp only [hpat, Bool.false_eq_true, if_false]
  cases hi : c0.items with
  | nil => simp
  | cons it its =>
    simp only [List.head?_cons, ne_eq, reduceCtorEq, not_false_iff,
      iff_true]
    split <;> rfl

def c10req : MatchRequest Nat Nat :=
  { chunks := [⟨[]⟩, ⟨[⟨5⟩]⟩]
    pattern := { AsString := "x", sortable := true, IsEmpty := false
                 Match := fun c => c.items.map Item.index }
    final := false, sort := true, revision := 0 }

def c10req' : MatchRequest Nat Nat :=
  { c10req with chunks := [⟨[⟨4⟩]⟩, ⟨[⟨5⟩]⟩] }

/-- Witness for C10: a first chunk with zero items makes the scan panic
(outcome `none`), and with a non-empty first chunk the scan is total. -/
theorem scan_first_chunk_access_total_iff_witness :
    ((scanEmbed c5env (fun _ => false) (fun _ => false) [0] c10req).isSome
      ↔ (⟨[]⟩ : Chunk).items ≠ [])
    ∧ ((scanEmbed c5env (fun _ => false) (fun _ => false) [0]
        c10req').isSome ↔ (⟨[⟨4⟩]⟩ : Chunk).items ≠ []) :=
  ⟨scan_first_chunk_access_total_iff c5env (fun _ => false) (fun _ => false)
      [0] c10req ⟨[]⟩ [⟨[⟨5⟩]⟩] rfl rfl,
    scan_first_chunk_access_total_iff c5env (fun _ => false) (fun _ => false)
      [0] c10req' ⟨[⟨4⟩]⟩ [⟨[⟨5⟩]⟩] rfl rfl⟩

theorem supLoop_no_reset (n : Nat) (resetAt emitAt : Nat → Bool)
    (hr : ∀ k, resetAt k = false) :
    ∀ fuel c, c < n → n ≤ fuel + c →
      (supLoop n resetAt emitAt fuel c).2.1 = false
      ∧ (supLoop n resetAt emitAt fuel c).2.2 = n := by
  intro fuel
  induction fuel with
  | zero => intro c hc hn; omega
  | succ fuel ih =>
    intro c hc hn
    unfold supLoop
    by_cases h1 : c + 1 = n
    · simp [h1]
    · rw [if_neg h1, hr (c + 1)]
      simp only [Bool.false_eq_true, if_false]
      exact ih (c + 1) (by omega) (by omega)

theorem supLoop_progress_mem (n : Nat) (resetAt emitAt : Nat → Bool) :
    ∀ fuel c, c < n →
      ∀ p ∈ (supLoop n resetAt emitAt fuel c).1,
        p.2 = n ∧ c < p.1 ∧ p.1 < n := by
  intro fuel
  induction fuel with
  | zero => intro c _ p hp; simp [supLoop] at hp
  | succ fuel ih =>
    intro c hc p hp
    unfold supLoop at hp
    by_cases h1 : c + 1 = n
    · rw [if_pos h1] at hp; simp at hp
    · rw [if_neg h1] at hp
      by_cases h2 : resetAt (c + 1) = true
      · rw [if_pos h2] at hp; simp at hp
      · rw [if_neg h2] at hp
        simp only [List.mem_append] at hp
        rcases hp with hp | hp
        · by_cases h3 : emitAt (c + 1) = true
          · rw [if_pos h3] at hp
            simp only [List.mem_singleton] at hp
            subst hp
            exact ⟨rfl, by omega, by omega⟩
          · rw [if_neg h3] at hp; simp at hp
        · have h := ih (c + 1) (by omega) p hp
          exact ⟨h.1, by omega, h.2.2⟩

theorem supLoop_progress_chain (n : Nat) (resetAt emitAt : Nat → Bool) :
    ∀ fuel c, c < n →
      List.Chain' (fun p q : Nat × Nat => p.1 < q.1)
        (supLoop n resetAt emitAt fuel c).1 := by
  intro fuel
  induction fuel with
  | zero => intro c _; simp [supLoop]
  | succ fuel ih =>
    intro c hc
    unfold supLoop
    by_cases h1 : c + 1 = n
    · simp [h1]
    · rw [if_neg h1]
      by_cases h2 : resetAt (c + 1) = true
      · simp [h2]
      · rw [if_neg h2]
        by_cases h3 : emitAt (c + 1) = true
        · simp only [h3, if_true, List.singleton_append]
          rw [List.chain'_cons']
          refine ⟨?_, ih (c + 1) (by omega)⟩
          intro y hy
          have hym := List.mem_of_mem_head? hy
          exact (supLoop_progress_mem n resetAt emitAt fuel (c + 1)
            (by omega) y hym).2.1
        · simp only [h3, Bool.false_eq_true, if_false, List.nil_append]
          exact ih (c + 1) (by omega)

theorem chain_ratio_of_counts {n : Nat} :
    ∀ l : List (Nat × Nat), List.Chain' (fun p q => p.1 < q.1) l →
      (∀ p ∈ l, p.2 = n) →
      List.Chain' (fun p q : Nat × Nat => p.1 * q.2 ≤ q.1 * p.2) l := by
  intro l
  induction l with
  | nil => intro _ _; exact List.chain'_nil
  | cons a l ih =>
    intro hc hall
    rw [List.chain'_cons'] at hc ⊢
    refine ⟨?_, ih hc.2 (fun p hp => hall p (List.mem_cons_of_mem a hp))⟩
    intro y hy
    have h1 := hc.1 y hy
    have ha : a.2 = n := hall a (List.mem_cons_self a l)
    have h2 : y.2 = n :=
      hall y (List.mem_cons_of_mem a (List.mem_of_mem_head? hy))
    rw [ha, h2]
    exact Nat.mul_le_mul_right n (Nat.le_of_lt h1)

/-- C9: within one uninterrupted scan (no pending reset ever observed, with a
non-empty pattern and a scorable first chunk), the emitted progress ratios
are non-decreasing as fractions — each is completed-count over total chunk
count with the completed count strictly increasing and below the total — and
the supervisor accounts for all chunks (the count reaches the total) before
the merger is produced. -/
theorem scan_progress_monotone {Result Rev : Type} (env : MatcherEnv Result)
    (resetAt emitAt : Nat → Bool) (order : List Nat)
    (req : MatchRequest Result Rev) (c0 : Chunk) (rest : List Chunk)
    (hch : req.chunks = c0 :: rest) (hpat : req.pattern.IsEmpty = false)
    (hitems : c0.items ≠ []) (hr : ∀ k, resetAt k = false) :
    ∃ out, scanEmbed env resetAt emitAt order req = some out
      ∧ out.cancelled = false
      ∧ out.merger.isSome = true
      ∧ List.Chain' (fun p q : Nat × Nat => p.1 * q.2 ≤ q.1 * p.2)
          out.progress
      ∧ (∀ p ∈ out.progress,
          p.2 = req.chunks.length ∧ p.1 < req.chunks.length)
      ∧ out.accounted = req.chunks.length := by
  obtain ⟨it0, its, hi⟩ := List.exists_cons_of_ne_nil hitems
  have hn : 0 < (c0 :: rest).length := by simp
  have hsup := supLoop_no_reset (c0 :: rest).length resetAt emitAt hr
    (c0 :: rest).length 0 hn (by omega)
  have hmem := supLoop_progress_mem (c0 :: rest).length resetAt emitAt
    (c0 :: rest).length 0 hn
  have hchain := supLoop_progress_chain (c0 :: rest).length resetAt emitAt
    (c0 :: rest).length 0 hn
  unfold scanEmbed
  rw [hch]
  simp only [hpat, Bool.false_eq_true, if_false, hi, List.head?_cons]
  rw [if_neg (by rw [hsup.1]; simp)]
  refine ⟨_, rfl, rfl, rfl, ?_, ?_, ?_⟩
  · exact chain_ratio_of_counts _ hchain (fun p hp => (hmem p hp).1)
  · intro p hp
    exact ⟨(hmem p hp).1, (hmem p hp).2.2⟩
  · exact hsup.2

def c9req : MatchRequest Nat Nat :=
  { chunks := [⟨[⟨0⟩, ⟨1⟩]⟩, ⟨[⟨2⟩]⟩, ⟨[⟨3⟩]⟩]
    pattern := { AsString := "x", sortable := true, IsEmpty := false
                 Match := fun c => c.items.map Item.index }
    final := true, sort := true, revision := 2 }

/-- Witness for C9 at a concrete three-chunk uninterrupted scan. -/
theorem scan_progress_monotone_witness :
    ∃ out, scanEmbed c5env (fun _ => false) (fun _ => true) [1, 0, 2]
        c9req = some out
      ∧ out.cancelled = false
      ∧ out.merger.isSome = true
      ∧ List.Chain' (fun p q : Nat × Nat => p.1 * q.2 ≤ q.1 * p.2)
          out.progress
      ∧ (∀ p ∈ out.progress,
          p.2 = c9req.chunks.length ∧ p.1 < c9req.chunks.length)
      ∧ out.accounted = c9req.chunks.length :=
  scan_progress_monotone c5env (fun _ => false) (fun _ => true) [1, 0, 2]
    c9req ⟨[⟨0⟩, ⟨1⟩]⟩ [⟨[⟨2⟩]⟩, ⟨[⟨3⟩]⟩] rfl rfl (by decide)
    (fun _ => rfl)

theorem publishPhase_scanRan {Result Rev : Type} (st2 : LoopState Result Rev)
    (cc ck s : Bool) (req : MatchRequest Result Rev)
    (mg : Merger Result Rev) :
    (publishPhase st2 cc ck s req mg).scanRan = s := by
  unfold publishPhase
  by_cases h : mg.cacheable <;> simp [h]

theorem clearPhase_false_iff {Result Rev : Type} [DecidableEq Rev]
    (st : LoopState Result Rev) (req : MatchRequest Result Rev) :
    (clearPhase st req).2 = false
      ↔ (req.sort = st.sort ∧ req.revision = st.revision) := by
  unfold clearPhase
  by_cases h : req.sort ≠ st.sort ∨ req.revision ≠ st.revision
  · simp only [if_pos h]
    constructor
    · intro hf; exact absurd hf (by simp)
    · rintro ⟨ha, hb⟩
      rcases h with h | h
      · exact absurd ha h
      · exact absurd hb h
  · simp only [if_neg h]
    push_neg at h
    simp [h.1, h.2]

theorem clearPhase_fst_of_false {Result Rev : Type} [DecidableEq Rev]
    (st : LoopState Result Rev) (req : MatchRequest Result Rev)
    (h : (clearPhase st req).2 = false) : (clearPhase st req).1 = st := by
  unfold clearPhase at h ⊢
  by_cases hc : req.sort ≠ st.sort ∨ req.revision ≠ st.revision
  · rw [if_pos hc] at h; exact absurd h (by simp)
  · rw [if_neg hc]

theorem countPhase_hit_iff {Result Rev : Type} (st1 : LoopState Result Rev)
    (cc : Bool) (req : MatchRequest Result Rev) :
    (∃ mg, (countPhase st1 cc req).2 = some mg)
    ↔ (cc = false ∧ CountItems req.chunks = st1.prevCount
        ∧ ∃ cached,
            st1.mergerCache.lookup req.pattern.AsString = some cached
            ∧ cached.final = req.final) := by
  unfold countPhase
  by_cases hcc : cc = true
  · simp [hcc]
  · rw [Bool.not_eq_true] at hcc
    subst hcc
    simp only [Bool.false_eq_true, if_false, true_and]
    by_cases h2 : CountItems req.chunks = st1.prevCount
    · rw [if_pos h2]
      cases hlk : st1.mergerCache.lookup req.pattern.AsString with
      | none => simp [h2]
      | some cached =>
        by_cases h3 : cached.final = req.final
        · simp [h2, h3]
        · simp [h2, h3]
    · simp [h2]

theorem loopStep_of_hit {Result Rev : Type} [DecidableEq Rev]
    (compatible : Rev → Rev → Bool)
    (doScan : MatchRequest Result Rev → Option (Merger Result Rev) × Bool)
    (st : LoopState Result Rev) (req : MatchRequest Result Rev)
    (mg : Merger Result Rev)
    (hhit : (countPhase (clearPhase st req).1 (clearPhase st req).2 req).2
      = some mg) :
    loopStep compatible doScan st req
      = some (publishPhase
          (countPhase (clearPhase st req).1 (clearPhase st req).2 req).1
          (clearPhase st req).2
          ((clearPhase st req).2
            && !(compatible req.revision (clearPhase st req).1.revision))
          false req mg) := by
  unfold loopStep
  rw [hhit]

theorem loopStep_scanRan_of_miss {Result Rev : Type} [DecidableEq Rev]
    (compatible : Rev → Rev → Bool)
    (doScan : MatchRequest Result Rev → Option (Merger Result Rev) × Bool)
    (st : LoopState Result Rev) (req : MatchRequest Result Rev)
    (hmiss : (countPhase (clearPhase st req).1 (clearPhase st req).2 req).2
      = none) :
    ∀ out, loopStep compatible doScan st req = some out →
      out.scanRan = true := by
  intro out hout
  unfold loopStep at hout
  rw [hmiss] at hout
  rcases hsc : doScan req with ⟨mgOpt, cf⟩
  rw [hsc] at hout
  cases cf
  · cases mgOpt with
    | none => exact absurd hout (by simp)
    | some mg =>
      simp only [Bool.false_eq_true, if_false, Option.some.injEq] at hout
      rw [← hout, publishPhase_scanRan]
  · simp only [if_true, Option.some.injEq] at hout
    rw [← hout]

/-- C2 (amended): a request is served from the merger cache — no scan is
run — exactly when the sort flag and revision match the engine's (so no
cache clearing occurs this cycle), the item count equals the engine's
recorded previous count (the snapshot from when the count last changed on an
uncleared cycle, which can be staler than the previous request's item
count), a cache entry exists for the exact pattern string, and that entry's
stored `final` flag equals the request's. -/
theorem loopStep_cache_hit_iff {Result Rev : Type} [DecidableEq Rev]
    (compatible : Rev → Rev → Bool)
    (doScan : MatchRequest Result Rev → Option (Merger Result Rev) × Bool)
    (st : LoopState Result Rev) (req : MatchRequest Result Rev) :
    (∃ out, loopStep compatible doScan st req = some out
        ∧ out.scanRan = false)
    ↔ ((req.sort = st.sort ∧ req.revision = st.revision)
        ∧ CountItems req.chunks = st.prevCount
        ∧ ∃ cached,
            st.mergerCache.lookup req.pattern.AsString = some cached
            ∧ cached.final = req.final) := by
  have step1 : (∃ out, loopStep compatible doScan st req = some out
        ∧ out.scanRan = false)
      ↔ ∃ mg, (countPhase (clearPhase st req).1 (clearPhase st req).2
          req).2 = some mg := by
    constructor
    · rintro ⟨out, hout, hsr⟩
      cases hc : (countPhase (clearPhase st req).1 (clearPhase st req).2
          req).2 with
      | none =>
        exact absurd (loopStep_scanRan_of_miss compatible doScan st req hc
          out hout) (by rw [hsr]; simp)
      | some mg => exact ⟨mg, rfl⟩
    · rintro ⟨mg, hmg⟩
      exact ⟨_, loopStep_of_hit compatible doScan st req mg hmg,
        publishPhase_scanRan _ _ _ _ _ _⟩
  rw [step1, countPhase_hit_iff]
  constructor
  · rintro ⟨hcc, hcount, hex⟩
    have hst := clearPhase_fst_of_false st req hcc
    rw [hst] at hcount hex
    exact ⟨(clearPhase_false_iff st req).mp hcc, hcount, hex⟩
  · rintro ⟨heq, hcount, hex⟩
    have hcc := (clearPhase_false_iff st req).mpr heq
    have hst := clearPhase_fst_of_false st req hcc
    rw [hst]
    exact ⟨hcc, hcount, hex⟩

/-- C6: in a cycle whose scan reports cancelled (the cycle missed the merger
cache, so the scan really ran), the loop emits no event at all — in
particular no EvtSearchFin — and stores nothing: the resulting state is
exactly the one left by the clearing and count phases. -/
theorem loopStep_cancelled_no_publish {Result Rev : Type} [DecidableEq Rev]
    (compatible : Rev → Rev → Bool)
    (doScan : MatchRequest Result Rev → Option (Merger Result Rev) × Bool)
    (st : LoopState Result Rev) (req : MatchRequest Result Rev)
    (hmiss : (countPhase (clearPhase st req).1 (clearPhase st req).2 req).2
      = none)
    (hcan : (doScan req).2 = true) :
    loopStep compatible doScan st req
      = some ⟨(countPhase (clearPhase st req).1 (clearPhase st req).2
            req).1,
          (clearPhase st req).2,
          (clearPhase st req).2
            && !(compatible req.revision (clearPhase st req).1.revision),
          true, []⟩ := by
  unfold loopStep
  rw [hmiss, hcan]
  rfl

theorem assemble_perm {Result : Type} (n : Nat) (w : Nat → List Result)
    (order₁ order₂ : List Nat) (h : order₁.Perm order₂) :
    assemble n (order₁.map (fun i => (i, w i)))
      = assemble n (order₂.map (fun i => (i, w i))) := by
  unfold assemble
  refine (h.map _).foldl_eq' ?_ _
  intro x hx y hy z
  obtain ⟨i, hi, rfl⟩ := List.mem_map.mp hx
  obtain ⟨j, hj, rfl⟩ := List.mem_map.mp hy
  by_cases hij : i = j
  · subst hij; rfl
  · show (z.set i (w i)).set j (w j) = (z.set j (w j)).set i (w i)
    exact List.set_comm (w i) (w j) z hij

/-- C8: for a fixed chunk list, pattern, and partitioning, the scan outcome
is the same for any two worker-delivery orders (each a permutation of the
partition indices): partial results are written at their partition index, so
worker completion order never affects the merger, and in particular two
uncancelled scans produce identical item ordering. -/
theorem scan_independent_of_completion_order {Result Rev : Type}
    (env : MatcherEnv Result) (resetAt emitAt : Nat → Bool)
    (req : MatchRequest Result Rev) (order₁ order₂ : List Nat)
    (h1 : order₁.Perm
      (List.range (sliceChunks env.partitions req.chunks).length))
    (h2 : order₂.Perm
      (List.range (sliceChunks env.partitions req.chunks).length)) :
    scanEmbed env resetAt emitAt order₁ req
      = scanEmbed env resetAt emitAt order₂ req := by
  unfold scanEmbed
  cases hch : req.chunks with
  | nil => rfl
  | cons c0 rest =>
    rw [hch] at h1 h2
    by_cases hemp : req.pattern.IsEmpty = true
    · simp [hemp]
    · rw [Bool.not_eq_true] at hemp
      simp only [hemp, Bool.false_eq_true, if_false]
      cases c0.items.head? with
      | none => rfl
      | some it0 =>
        have hasm : assemble (sliceChunks env.partitions (c0 :: rest)).length
            (order₁.map (fun i => (i, workerMatches env req.pattern
              ((sliceChunks env.partitions (c0 :: rest)).getD i []))))
          = assemble (sliceChunks env.partitions (c0 :: rest)).length
            (order₂.map (fun i => (i, workerMatches env req.pattern
              ((sliceChunks env.partitions (c0 :: rest)).getD i [])))) :=
          assemble_perm _ _ order₁ order₂ (h1.trans h2.symm)
        rw [hasm]

def c8req : MatchRequest Nat Nat :=
  { chunks := [⟨[⟨9⟩, ⟨1⟩]⟩, ⟨[⟨4⟩]⟩]
    pattern := { AsString := "ab", sortable := true, IsEmpty := false
                 Match := fun c => c.items.map Item.index }
    final := false, sort := true, revision := 1 }

def c8env : MatcherEnv Nat := ⟨true, false, 2, Nat.ble, fun a b => Nat.ble b a⟩

/-- Witness for C8: the two delivery orders of a two-partition scan yield
the same outcome. -/
theorem scan_independent_of_completion_order_witness :
    scanEmbed c8env (fun _ => false) (fun _ => true) [1, 0] c8req
      = scanEmbed c8env (fun _ => false) (fun _ => true) [0, 1] c8req :=
  scan_independent_of_completion_order c8env (fun _ => false)
    (fun _ => true) c8req [1, 0] [0, 1] (by decide) (by decide)

theorem workerScan_no_abort {Result : Type} (pat : Pattern Result)
    (cancelAt : Nat → Bool) :
    ∀ (chunks : List Chunk) (i : Nat),
      (workerScan pat cancelAt i chunks).2.2 = false →
      (workerScan pat cancelAt i chunks).1 = chunks.map pat.Match := by
  intro chunks
  induction chunks with
  | nil => intro i _; rfl
  | cons c cs ih =>
    intro i hab
    unfold workerScan at hab ⊢
    by_cases hc : cancelAt i = true
    · rw [if_pos hc] at hab; exact absurd hab (by simp)
    · rw [if_neg hc] at hab ⊢
      simp only [List.map_cons, List.cons.injEq, true_and]
      exact ih (i + 1) hab

/-- C7 (amended): a worker that finishes all chunks in its slice hands the
supervisor its accumulated matches, locally sorted when the sort flag is set
and the pattern is sortable (tac comparator in tail-first mode); a worker
that stops early because it observed the cancellation flag hands over
nothing (it only returns, signalling completion for the supervisor's wait
accounting). -/
theorem workerRun_handoff {Result : Type} (env : MatcherEnv Result)
    (pat : Pattern Result) (cancelAt : Nat → Bool) (chunks : List Chunk) :
    (workerRun env pat cancelAt chunks).1
      = if (workerScan pat cancelAt 0 chunks).2.2 then none
        else some (workerMatches env pat chunks) := by
  unfold workerRun workerMatches
  by_cases h : (workerScan pat cancelAt 0 chunks).2.2 = true
  · simp [h]
  · rw [Bool.not_eq_true] at h
    simp only [h, Bool.false_eq_true, if_false, Option.some.injEq]
    rw [workerScan_no_abort pat cancelAt chunks 0 h]

def c7pat : Pattern Nat :=
  { AsString := "y", sortable := true, IsEmpty := false
    Match := fun c => c.items.map Item.index }

def c7chunks : List Chunk := [⟨[⟨5⟩]⟩, ⟨[⟨3⟩]⟩]

/-- Counterexample to C7 as stated: this worker observes the cancellation
flag right after its first chunk (stopping early), and hands the supervisor
nothing — not its sorted accumulated matches — refuting that a worker
stopping early still sorts and hands over its partition's result set. -/
theorem workerRun_cancelled_hands_nothing :
    (workerScan c7pat (fun _ => true) 0 c7chunks).2.2 = true
    ∧ (workerRun c8env c7pat (fun _ => true) c7chunks).1 = none
    ∧ ¬ (workerRun c8env c7pat (fun _ => true) c7chunks).1
        = some (workerMatches c8env c7pat c7chunks) := by decide

def c1compat : Nat × Nat → Nat × Nat → Bool := fun a b => a.1 == b.1

def c1pat : Pattern Nat :=
  { AsString := "q", sortable := false, IsEmpty := true
    Match := fun _ => [] }

def c1st : LoopState Nat (Nat × Nat) :=
  { sort := false, revision := (0, 0), mergerCache := [], prevCount := 0 }

def c1req : MatchRequest Nat (Nat × Nat) :=
  { chunks := [], pattern := c1pat, final := false, sort := false
    revision := (1, 0) }

def c1scan : MatchRequest Nat (Nat × Nat) →
    Option (Merger Nat (Nat × Nat)) × Bool :=
  fun r => (some (EmptyMerger r.revision), false)

/-- C1 fails on the code: with same-major compatibility, the request's
revision (1,0) is incompatible with the engine's previous revision (0,0), so
the claim requires the upstream chunk cache to be instructed to clear; but
because `m.revision` is assigned before the compatibility test (matcher.go
lines 88-90), the code compares the request's revision with itself and does
not clear the chunk cache — while still discarding the merger cache. -/
theorem loopStep_no_chunk_clear_on_incompatible_revision :
    (loopStep c1compat c1scan c1st c1req).map
        (fun o => (o.cacheCleared, o.chunkCacheCleared)) = some (true, false)
    ∧ c1compat c1req.revision c1st.revision = false := by decide

def c2compat : Nat → Nat → Bool := fun _ _ => true

def c2pat : Pattern Nat :=
  { AsString := "q", sortable := true, IsEmpty := false
    Match := fun c => c.items.map Item.index }

def c2req1 : MatchRequest Nat Nat :=
  { chunks := [⟨[⟨0⟩]⟩], pattern := c2pat, final := false, sort := true
    revision := 0 }

def c2merger : Merger Nat Nat :=
  { data := .buildData [[0]] true false 0 0, revision := 0, final := false
    cacheable := true }

def c2scan : MatchRequest Nat Nat → Option (Merger Nat Nat) × Bool :=
  fun _ => (some c2merger, false)

def c2st0 : LoopState Nat Nat :=
  { sort := false, revision := 0, mergerCache := [], prevCount := 0 }

/-- Counterexample to C2 as stated: request 1 flips the sort flag (a
cache-clearing cycle), so `prevCount` keeps its stale value 0 while the scan
result for query "q" is stored in the cache with `final = false`; the
literally identical request 2 — same query string, same item count, same
sort flag and revision, and `final` equal to the stored entry's — is
nevertheless NOT served from the cache: its cycle sees item count 1 differ
from the recorded previous count 0, discards the merger cache and runs the
scan again (`scanRan = true`). -/
theorem loopStep_consecutive_equal_requests_not_cached :
    (loopStep c2compat c2scan c2st0 c2req1).map
        (fun o1 =>
          ((o1.state.mergerCache.lookup c2req1.pattern.AsString).map
              Merger.final,
            (loopStep c2compat c2scan o1.state c2req1).map
              LoopStepOut.scanRan))
      = some (some false, some true)
    ∧ c2req1.final = false := by decide

def c6compat : Nat → Nat → Bool := fun _ _ => true

def c6scan : MatchRequest Nat Nat → Option (Merger Nat Nat) × Bool :=
  fun _ => (none, true)

def c6st : LoopState Nat Nat :=
  { sort := true, revision := 0, mergerCache := [], prevCount := 0 }

def c6req : MatchRequest Nat Nat :=
  { chunks := [⟨[⟨0⟩]⟩]
    pattern := { AsString := "zz", sortable := false, IsEmpty := false
                 Match := fun _ => [] }
    final := false, sort := true, revision := 0 }

/-- Witness for C6 at a concrete cancelled cycle. -/
theorem loopStep_cancelled_no_publish_witness :
    loopStep c6compat c6scan c6st c6req
      = some ⟨(countPhase (clearPhase c6st c6req).1 (clearPhase c6st c6req).2
            c6req).1,
          (clearPhase c6st c6req).2,
          (clearPhase c6st c6req).2
            && !(c6compat c6req.revision (clearPhase c6st c6req).1.revision),
          true, []⟩ :=
  loopStep_cancelled_no_publish c6compat c6scan c6st c6req (by decide) rfl

/-- Witness for C3 at partition count 4 with ten chunks (N ≥ P) and with
three chunks (N < P). -/
theorem sliceChunks_partition_correct_witness :
    ((sliceChunks 4 (List.range 10)).flatten = List.range 10
      ∧ (∀ sl ∈ sliceChunks 4 (List.range 10), sl ≠ [])
      ∧ ((List.range 10).length < 4 →
          (sliceChunks 4 (List.range 10)).length = (List.range 10).length
          ∧ ∀ sl ∈ sliceChunks 4 (List.range 10), sl.length = 1)
      ∧ (4 ≤ (List.range 10).length →
          (sliceChunks 4 (List.range 10)).length = 4
          ∧ (∀ i, i + 1 < 4 →
              ((sliceChunks 4 (List.range 10)).getD i []).length
                = (List.range 10).length / 4)
          ∧ (sliceChunks 4 (List.range 10)).getLast?
              = some ((List.range 10).drop
                  ((4 - 1) * ((List.range 10).length / 4)))
          ∧ ((List.range 10).drop
                ((4 - 1) * ((List.range 10).length / 4))).length
              = (List.range 10).length
                - (4 - 1) * ((List.range 10).length / 4)))
    ∧ ((sliceChunks 4 (List.range 3)).flatten = List.range 3
      ∧ (∀ sl ∈ sliceChunks 4 (List.range 3), sl ≠ [])
      ∧ ((List.range 3).length < 4 →
          (sliceChunks 4 (List.range 3)).length = (List.range 3).length
          ∧ ∀ sl ∈ sliceChunks 4 (List.range 3), sl.length = 1)
      ∧ (4 ≤ (List.range 3).length →
          (sliceChunks 4 (List.range 3)).length = 4
          ∧ (∀ i, i + 1 < 4 →
              ((sliceChunks 4 (List.range 3)).getD i []).length
                = (List.range 3).length / 4)
          ∧ (sliceChunks 4 (List.range 3)).getLast?
              = some ((List.range 3).drop
                  ((4 - 1) * ((List.range 3).length / 4)))
          ∧ ((List.range 3).drop
                ((4 - 1) * ((List.range 3).length / 4))).length
              = (List.range 3).length
                - (4 - 1) * ((List.range 3).length / 4))) :=
  ⟨sliceChunks_partition_correct 4 (List.range 10) (by decide) (by decide),
    sliceChunks_partition_correct 4 (List.range 3) (by decide) (by decide)⟩

end Fzf
